import Mathlib

/- Verification development for TheZonePickleballReservations
   (src/sniper.py and src/slack_server.py).

   Embedding conventions:
   * Python/JS strings are modelled as `List Char`; a string literal `s` of the
     source appears as `"s".data`.
   * Fallible Python code (code that may raise) is modelled with `Option` /
     `Except`: a `none` / `.error` value marks the raising (or caught-and-
     converted) path, so every embedded function is total.
   * `pytz.timezone("Asia/Manila")` is a fixed UTC+8 zone with no daylight
     saving time, so instants are modelled as minutes since an epoch and the
     Manila wall-clock date of an instant is obtained by a fixed +480 minute
     shift.
   * The browser page is modelled by the data the scraping code reads from it:
     the list of button labels, the per-court click positions, and the
     geometry rectangles inspected by the availability scanner.  Side effects
     (navigations, clicks, screenshots) are recorded in explicit event
     traces. -/

namespace ZonePickle

/-- Characters stripped by Python `str.strip()` (whitespace). -/
def isSpaceCh (c : Char) : Bool := c = ' ' || c = '\t' || c = '\n' || c = '\r'

/-- Python `str.strip()`. -/
def trimStr (s : List Char) : List Char :=
  ((s.dropWhile isSpaceCh).reverse.dropWhile isSpaceCh).reverse

def isPrefOf : List Char → List Char → Bool
  | [], _ => true
  | _ :: _, [] => false
  | a :: as, b :: bs => a = b && isPrefOf as bs

/-- Python `needle in hay` substring containment (also the containment used by
Playwright `:has-text`, which is case-insensitive: callers upper-case both
sides first for that use). -/
def containsSub (needle : List Char) : List Char → Bool
  | [] => isPrefOf needle []
  | b :: bs => isPrefOf needle (b :: bs) || containsSub needle bs

/-- Python `str.split(sep)` for a one-character separator `c`
(`"".split(sep) = [""]`, and a separator occurrence always opens a new
segment). -/
def splitCh (c : Char) : List Char → List (List Char)
  | [] => [[]]
  | a :: as =>
    let r := splitCh c as
    if a = c then [] :: r
    else (a :: r.headD []) :: r.tail

/-- Numeric value of a decimal digit character. -/
def digitVal (c : Char) : Option Nat :=
  if c.isDigit then some (c.toNat - 48) else none

def parseNatAux (acc : Nat) : List Char → Option Nat
  | [] => some acc
  | c :: cs =>
    match digitVal c with
    | none => none
    | some d => parseNatAux (acc * 10 + d) cs

/-- Decimal digit-string parser: `none` on the empty string or any
non-digit character. -/
def parseNatDigits : List Char → Option Nat
  | [] => none
  | cs => parseNatAux 0 cs

/-- Python `int(s)` on an already-stripped string: an optional sign followed
by decimal digits; `none` models the `ValueError` path. -/
def parseIntStr : List Char → Option Int
  | '-' :: cs => (parseNatDigits cs).map (fun n => -(n : Int))
  | '+' :: cs => (parseNatDigits cs).map (fun n => (n : Int))
  | cs => (parseNatDigits cs).map (fun n => (n : Int))

/-! ## Time Gate (sniper.py `run`, lines 547-554, and `book_slot_direct`,
lines 899-907)

`MANILA_TZ = pytz.timezone("Asia/Manila")` is a fixed UTC+8 offset
(480 minutes), with no daylight saving, so adding `timedelta(days=h)` to an
aware `datetime` advances both the absolute instant and the Manila wall
clock by exactly `h * 1440` minutes. -/

def manilaOffsetMin : Nat := 480

/-- The Manila calendar day (as a day ordinal) of an instant given in minutes
since the epoch: `datetime.now(MANILA_TZ).date()`. -/
def manilaLocalDay (utcMin : Nat) : Nat := (utcMin + manilaOffsetMin) / 1440

/-- sniper.py line 552: `target_date_obj = now_manila + timedelta(days=h)`
(with `h = DAYS_AHEAD_LIMIT`), as an instant. -/
def targetDateInstant (nowUtcMin : Nat) (horizonDays : Nat) : Nat :=
  nowUtcMin + horizonDays * 1440

/-- sniper.py line 903: `(target_date_obj.date() - now.date()).days`,
the days-ahead count recomputed from two instants. -/
def daysAheadOf (targetMin nowMin : Nat) : Int :=
  (manilaLocalDay targetMin : Int) - (manilaLocalDay nowMin : Int)

/-- Claim C3: for every current instant `now` and every `horizonDays` in
`[0, 4]`, the Time Gate's target date is exactly `horizonDays` calendar days
after `now` in Asia/Manila, and the days-ahead count recomputed from that
target date equals `horizonDays` exactly. -/
theorem timeGate_targetDate_exact (now h : Nat) (_hh : h ≤ 4) :
    manilaLocalDay (targetDateInstant now h) = manilaLocalDay now + h ∧
    daysAheadOf (targetDateInstant now h) now = (h : Int) := by
  have key : manilaLocalDay (targetDateInstant now h) = manilaLocalDay now + h := by
    unfold manilaLocalDay targetDateInstant manilaOffsetMin
    have hr : now + h * 1440 + 480 = (now + 480) + 1440 * h := by ring
    rw [hr, Nat.add_mul_div_left _ _ (by norm_num : (0 : Nat) < 1440)]
  refine ⟨key, ?_⟩
  unfold daysAheadOf
  rw [key]
  push_cast
  ring

/-- Witness for `timeGate_targetDate_exact` at a concrete instant and
horizon. -/
theorem timeGate_targetDate_witness :
    manilaLocalDay (targetDateInstant 1000000 3) = manilaLocalDay 1000000 + 3 ∧
    daysAheadOf (targetDateInstant 1000000 3) 1000000 = 3 :=
  timeGate_targetDate_exact 1000000 3 (by decide)

/-! ## Booking payload (sniper.py `make_button` line 191, `book_slot_direct`
lines 888-909, slack_server.py `handle_slack_action` lines 157-167) -/

/-- sniper.py line 21: the default priority-ordered court list. -/
def TARGET_COURT_KEYWORDS : List (List Char) :=
  ["Wood 1".data, "Wood 2".data, "Wood 3".data,
   "Wood 4".data, "Wood 5".data, "Wood 6".data]

/-- sniper.py line 191 (`make_button`): the button payload
`f"{date_str}|{court}|{time_slot}"`. -/
def makeButtonValue (dateStr court timeSlot : List Char) : List Char :=
  dateStr ++ ('|' :: (court ++ ('|' :: timeSlot)))

/-- slack_server.py lines 159-161: `value.split("|")`, accepted only when it
has exactly three fields. -/
def handleBookValue (value : List Char) :
    Option (List Char × List Char × List Char) :=
  match splitCh '|' value with
  | [d, c, t] => some (d, c, t)
  | _ => none

/-- sniper.py lines 889-897 (`book_slot_direct`): strip spaces, upper-case,
take the text before the first colon, `int(...)` it, then apply the 12-hour
AM/PM adjustment.  `none` models the caught `ValueError`. -/
def parseTimeDirect (t : List Char) : Option Int :=
  let clean := (t.filter (fun c => c ≠ ' ')).map Char.toUpper
  match parseIntStr (clean.takeWhile (fun c => c ≠ ':')) with
  | none => none
  | some h =>
    if containsSub "PM".data clean && h ≠ 12 then some (h + 12)
    else if containsSub "AM".data clean && h = 12 then some 0
    else some h

/-- Gregorian leap-year test (as in Python `datetime.date`). -/
def isLeapYear (y : Nat) : Bool :=
  (y % 4 = 0 && y % 100 ≠ 0) || y % 400 = 0

/-- Length of month `m` of year `y` (Python `calendar`/`datetime`). -/
def daysInMonth (y m : Nat) : Nat :=
  if m = 2 then (if isLeapYear y then 29 else 28)
  else if m = 4 || m = 6 || m = 9 || m = 11 then 30
  else 31

/-- Days in year `y` before the first of month `m` (months `1..12`). -/
def daysBeforeMonth (y : Nat) : Nat → Nat
  | 0 => 0
  | m + 1 => if m = 0 then 0 else daysBeforeMonth y m + daysInMonth y m

/-- Days before January 1 of year `y` in the proleptic Gregorian calendar
(Python `date.toordinal` counts from ordinal 1 = 0001-01-01). -/
def daysBeforeYear (y : Nat) : Nat :=
  let n := y - 1
  n * 365 + n / 4 + n / 400 - n / 100

/-- Python `date(y, m, d).toordinal()`. -/
def toOrdinal (y m d : Nat) : Nat :=
  daysBeforeYear y + daysBeforeMonth y m + d

/-- sniper.py line 901: `datetime.strptime(target_date, "%Y-%m-%d")`.
CPython's `%Y` matches exactly four digits and `%m`/`%d` one or two digits;
`datetime` then range-checks the fields (raising `ValueError`, modelled as
`none`). -/
def parseDate (s : List Char) : Option (Nat × Nat × Nat) :=
  match splitCh '-' s with
  | [ys, ms, ds] =>
    if ys.length = 4 && ys.all Char.isDigit &&
       decide (1 ≤ ms.length) && decide (ms.length ≤ 2) && ms.all Char.isDigit &&
       decide (1 ≤ ds.length) && decide (ds.length ≤ 2) && ds.all Char.isDigit then
      match parseNatDigits ys, parseNatDigits ms, parseNatDigits ds with
      | some y, some m, some d =>
        if 1 ≤ y ∧ 1 ≤ m ∧ m ≤ 12 ∧ 1 ≤ d ∧ d ≤ daysInMonth y m then
          some (y, m, d)
        else none
      | _, _, _ => none
    else none
  | _ => none

/-- Re-authentication instruction returned by `book_slot_direct` (line 886)
when no session file is present. -/
def noSessionMsg : List Char :=
  "No saved session. Run python sniper.py --setup first.".data

/-- sniper.py lines 884-909 (`book_slot_direct`): the validation prefix that
runs before any browser is launched.  Returns `.error message` exactly where
the source returns `(False, message)`, and `.ok (hour, days_ahead)` where the
source proceeds to navigation.  `now` is the current Manila calendar date. -/
def book_slot_direct_validate (sessionExists : Bool)
    (targetDate targetTime : List Char) (nowY nowM nowD : Nat) :
    Except (List Char) (Int × Int) :=
  if !sessionExists then .error noSessionMsg
  else
    match parseTimeDirect targetTime with
    | none => .error ("Could not parse time: ".data ++ targetTime)
    | some hour =>
      match parseDate targetDate with
      | none => .error ("Could not parse date: ".data ++ targetDate)
      | some (y, m, d) =>
        let daysAhead : Int := (toOrdinal y m d : Int) - (toOrdinal nowY nowM nowD : Int)
        if daysAhead < 0 then
          .error ("Date ".data ++ targetDate ++ " is in the past".data)
        else if daysAhead > 4 then
          .error ("Date ".data ++ targetDate ++
                  " is more than 4 days ahead (booking limit)".data)
        else .ok (hour, daysAhead)

/-- Outcome of the whole direct-booking path for one inbound payload value:
the Action Gateway either skips the action (field count not 3, answering its
default acknowledgment), or hands the fields to `book_slot_direct`, which
fails validation with a message or proceeds to the browser. -/
inductive PathResult where
  | noAttempt
  | failed (msg : List Char)
  | proceeded (hour daysAhead : Int)
deriving DecidableEq

def PathResult.isFailed : PathResult → Bool
  | .failed _ => true
  | _ => false

/-- slack_server.py lines 157-167 composed with the `book_slot_direct`
validation prefix. -/
def directPath (value : List Char) (sessionExists : Bool)
    (nowY nowM nowD : Nat) : PathResult :=
  match handleBookValue value with
  | none => .noAttempt
  | some (d, _c, t) =>
    match book_slot_direct_validate sessionExists d t nowY nowM nowD with
    | .error m => .failed m
    | .ok (h, da) => .proceeded h da

/-! ## Payload round-trip (claim C4) -/

theorem splitCh_cons (c a : Char) (as : List Char) :
    splitCh c (a :: as) =
      if a = c then [] :: splitCh c as
      else (a :: (splitCh c as).headD []) :: (splitCh c as).tail := rfl

theorem splitCh_no_sep (c : Char) :
    ∀ s : List Char, c ∉ s → splitCh c s = [s] := by
  intro s
  induction s with
  | nil => intro _; rfl
  | cons a as ih =>
    intro hnot
    have ha : a ≠ c := fun h => hnot (h ▸ List.mem_cons_self a as)
    have has : c ∉ as := fun h => hnot (List.mem_cons_of_mem a h)
    rw [splitCh_cons, if_neg ha, ih has]
    rfl

theorem splitCh_append (c : Char) :
    ∀ d rest : List Char, c ∉ d →
      splitCh c (d ++ c :: rest) = d :: splitCh c rest := by
  intro d
  induction d with
  | nil =>
    intro rest _
    show splitCh c (c :: rest) = [] :: splitCh c rest
    rw [splitCh_cons, if_pos rfl]
  | cons a as ih =>
    intro rest hnot
    have ha : a ≠ c := fun h => hnot (h ▸ List.mem_cons_self a as)
    have has : c ∉ as := fun h => hnot (List.mem_cons_of_mem a h)
    show splitCh c (a :: (as ++ c :: rest)) = (a :: as) :: splitCh c rest
    rw [splitCh_cons, if_neg ha, ih rest has]
    rfl

theorem mem_of_mem_splitCh (c x : Char) :
    ∀ s : List Char, x ∈ s → x = c ∨ ∃ p ∈ splitCh c s, x ∈ p := by
  intro s
  induction s with
  | nil => intro h; cases h
  | cons a as ih =>
    intro hx
    rcases List.mem_cons.mp hx with rfl | hx'
    · by_cases hac : x = c
      · exact Or.inl hac
      · refine Or.inr ?_
        rw [splitCh_cons, if_neg hac]
        exact ⟨x :: (splitCh c as).headD [], List.mem_cons_self _ _,
          List.mem_cons_self _ _⟩
    · rcases ih hx' with h | ⟨p, hp, hxp⟩
      · exact Or.inl h
      · refine Or.inr ?_
        by_cases hac : a = c
        · rw [splitCh_cons, if_pos hac]
          exact ⟨p, List.mem_cons_of_mem _ hp, hxp⟩
        · rw [splitCh_cons, if_neg hac]
          rcases hr : splitCh c as with _ | ⟨q, qs⟩
          · rw [hr] at hp; cases hp
          · rw [hr] at hp
            rcases List.mem_cons.mp hp with rfl | hq
            · exact ⟨a :: p, by simp, List.mem_cons_of_mem _ hxp⟩
            · exact ⟨p, by simp [hq], hxp⟩

/-- A date string accepted by `parseDate` is made of digits and dashes, so it
contains no payload delimiter. -/
theorem parseDate_no_pipe (s : List Char) (hs : (parseDate s).isSome = true) :
    '|' ∉ s := by
  intro hmem
  unfold parseDate at hs
  split at hs
  · next ys ms ds heq =>
    split at hs
    · next hcond =>
      rcases mem_of_mem_splitCh '-' '|' s hmem with hdash | ⟨p, hp, hxp⟩
      · exact absurd hdash (by decide)
      · rw [heq] at hp
        simp only [List.mem_cons, List.not_mem_nil, or_false] at hp
        simp only [Bool.and_eq_true, decide_eq_true_eq] at hcond
        have hdig : p.all Char.isDigit = true := by
          rcases hp with rfl | rfl | rfl
          · exact hcond.1.1.1.1.1.1.2
          · exact hcond.1.1.1.2
          · exact hcond.2
        have : Char.isDigit '|' = true := List.all_eq_true.mp hdig '|' hxp
        exact absurd this (by decide)
    · exact absurd hs (by simp)
  · exact absurd hs (by simp)

/-- The canonical valid 12-hour label of hour `h` (`"12:00 AM"` for 0,
`"12:00 PM"` for 12, as produced for display in
`format_multi_day_availability`, sniper.py lines 160-165). -/
def hour12Label (h : Nat) : List Char :=
  if h = 0 then "12:00 AM".data
  else if h < 12 then Nat.toDigits 10 h ++ ":00 AM".data
  else if h = 12 then "12:00 PM".data
  else Nat.toDigits 10 (h - 12) ++ ":00 PM".data

theorem hour12Label_parse :
    ∀ h : Fin 24, parseTimeDirect (hour12Label h.val) = some (h.val : Int) := by
  decide

theorem hour12Label_no_pipe : ∀ h : Fin 24, '|' ∉ hour12Label h.val := by
  decide

theorem court_no_pipe : ∀ c ∈ TARGET_COURT_KEYWORDS, '|' ∉ c := by decide

/-- The triple recovered from an inbound payload value by the Action Gateway
split (slack_server.py lines 159-161) followed by the hour parse of
`book_slot_direct` (sniper.py lines 889-897): the round-tripped
`BookingTarget`. -/
def parsePayloadTriple (value : List Char) :
    Option (List Char × List Char × Int) :=
  match handleBookValue value with
  | none => none
  | some (d, c, t) => (parseTimeDirect t).map (fun h => (d, c, h))

/-- Claim C4: for every valid `BookingTarget` (a date accepted by the date
parser, one of the enumerable courts, any hour `0..23` rendered as its valid
12-hour label, including the edge labels `12:00 AM` and `12:00 PM`), encoding
it into the pipe-delimited payload `date|court|time` and parsing that payload
back yields an equal `BookingTarget`: the same date string, the same court,
and the same hour. -/
theorem payload_roundTrip (dateStr court : List Char) (h : Nat)
    (hdate : (parseDate dateStr).isSome = true)
    (hcourt : court ∈ TARGET_COURT_KEYWORDS)
    (hh : h < 24) :
    parsePayloadTriple (makeButtonValue dateStr court (hour12Label h)) =
      some (dateStr, court, (h : Int)) := by
  have hdp : '|' ∉ dateStr := parseDate_no_pipe dateStr hdate
  have hcp : '|' ∉ court := court_no_pipe court hcourt
  have hlp : '|' ∉ hour12Label h := hour12Label_no_pipe ⟨h, hh⟩
  have hsplit : splitCh '|' (makeButtonValue dateStr court (hour12Label h)) =
      [dateStr, court, hour12Label h] := by
    unfold makeButtonValue
    rw [splitCh_append '|' dateStr _ hdp, splitCh_append '|' court _ hcp,
      splitCh_no_sep '|' _ hlp]
  unfold parsePayloadTriple handleBookValue
  rw [hsplit]
  simp only
  rw [hour12Label_parse ⟨h, hh⟩]
  rfl

/-- Witness for `payload_roundTrip`: the concrete target
`2026-02-02 | Wood 3 | 7:00 PM` (hour 19) round-trips. -/
theorem payload_roundTrip_witness :
    parsePayloadTriple
        (makeButtonValue "2026-02-02".data "Wood 3".data (hour12Label 19)) =
      some ("2026-02-02".data, "Wood 3".data, (19 : Int)) :=
  payload_roundTrip "2026-02-02".data "Wood 3".data 19 (by decide) (by decide)
    (by decide)

/-! ## Malformed payload handling (claim C5)

Every branch of the embedded path is a returned value (`Option`/`Except`):
the `try/except` blocks of `book_slot_direct` are the `none`/`.error`
branches, so the path never raises — what remains to settle is which
malformed inputs produce a failure flag plus message. -/

theorem handleBookValue_wrong_count (value : List Char)
    (hlen : (splitCh '|' value).length ≠ 3) : handleBookValue value = none := by
  unfold handleBookValue
  split
  · next d c t heq => rw [heq] at hlen; simp at hlen
  · rfl

theorem directPath_eq_validate (value d c t : List Char) (sess : Bool)
    (ny nm nd : Nat) (hsplit : splitCh '|' value = [d, c, t]) :
    directPath value sess ny nm nd =
      match book_slot_direct_validate sess d t ny nm nd with
      | .error m => .failed m
      | .ok (h, da) => .proceeded h da := by
  unfold directPath handleBookValue
  rw [hsplit]

/-- Claim C5 (amended): a payload with the wrong field count makes the
gateway skip the booking entirely — it answers its default acknowledgment and
produces no failure flag — while every other malformed case (unparseable
time, unparseable date, a date in the past, or more than 4 days ahead) makes
the direct-booking validator return the failure flag plus message, and the
concrete payload `2026-02-02|Wood 3|7:00 PM` is accepted with
`days_ahead = 3` when now is 2026-01-30 and rejected when now is 2026-01-25
(`days_ahead = 8`); no case raises. -/
theorem directPath_validation (value : List Char) (ny nm nd : Nat) :
    ((splitCh '|' value).length ≠ 3 →
      directPath value true ny nm nd = .noAttempt) ∧
    (∀ d c t, splitCh '|' value = [d, c, t] → parseTimeDirect t = none →
      directPath value true ny nm nd =
        .failed ("Could not parse time: ".data ++ t)) ∧
    (∀ d c t h, splitCh '|' value = [d, c, t] → parseTimeDirect t = some h →
      parseDate d = none →
      directPath value true ny nm nd =
        .failed ("Could not parse date: ".data ++ d)) ∧
    (∀ d c t h y m dd, splitCh '|' value = [d, c, t] →
      parseTimeDirect t = some h → parseDate d = some (y, m, dd) →
      (toOrdinal y m dd : Int) - (toOrdinal ny nm nd : Int) < 0 →
      directPath value true ny nm nd =
        .failed ("Date ".data ++ d ++ " is in the past".data)) ∧
    (∀ d c t h y m dd, splitCh '|' value = [d, c, t] →
      parseTimeDirect t = some h → parseDate d = some (y, m, dd) →
      (toOrdinal y m dd : Int) - (toOrdinal ny nm nd : Int) > 4 →
      directPath value true ny nm nd =
        .failed ("Date ".data ++ d ++
          " is more than 4 days ahead (booking limit)".data)) ∧
    directPath "2026-02-02|Wood 3|7:00 PM".data true 2026 1 30 =
      .proceeded 19 3 ∧
    directPath "2026-02-02|Wood 3|7:00 PM".data true 2026 1 25 =
      .failed ("Date ".data ++ "2026-02-02".data ++
        " is more than 4 days ahead (booking limit)".data) := by
  refine ⟨?_, ?_, ?_, ?_, ?_, by decide, by decide⟩
  · intro hlen
    unfold directPath
    rw [handleBookValue_wrong_count value hlen]
  · intro d c t hsplit htime
    rw [directPath_eq_validate value d c t true ny nm nd hsplit]
    unfold book_slot_direct_validate
    simp only [Bool.not_true, Bool.false_eq_true, if_false, htime]
  · intro d c t h hsplit htime hdate
    rw [directPath_eq_validate value d c t true ny nm nd hsplit]
    unfold book_slot_direct_validate
    simp only [Bool.not_true, Bool.false_eq_true, if_false, htime, hdate]
  · intro d c t h y m dd hsplit htime hdate hpast
    rw [directPath_eq_validate value d c t true ny nm nd hsplit]
    unfold book_slot_direct_validate
    simp only [Bool.not_true, Bool.false_eq_true, if_false, htime, hdate]
    rw [if_pos hpast]
  · intro d c t h y m dd hsplit htime hdate hfar
    rw [directPath_eq_validate value d c t true ny nm nd hsplit]
    unfold book_slot_direct_validate
    simp only [Bool.not_true, Bool.false_eq_true, if_false, htime, hdate]
    rw [if_neg (by omega), if_pos hfar]

/-- Claim C5 counterexample: the payload `a|b` has the wrong field count, yet
the direct-booking path produces no failure flag plus message — the gateway
skips the action and answers its default acknowledgment instead. -/
theorem directPath_wrongFieldCount_counterexample :
    (splitCh '|' "a|b".data).length ≠ 3 ∧
    directPath "a|b".data true 2026 1 30 = .noAttempt ∧
    (directPath "a|b".data true 2026 1 30).isFailed = false := by decide

/-- Witness for `directPath_validation`: an unparseable month makes the
validator fail with the date message. -/
theorem directPath_validation_witness :
    directPath "2026-99-09|Wood 3|7:00 PM".data true 2026 1 30 =
      .failed ("Could not parse date: ".data ++ "2026-99-09".data) :=
  (directPath_validation "2026-99-09|Wood 3|7:00 PM".data 2026 1 30).2.2.1
    "2026-99-09".data "Wood 3".data "7:00 PM".data 19
    (by decide) (by decide) (by decide)

/-! ## Booking dialog control search (claim C1)

sniper.py lines 761-768 (`run`) and 996-1001 (`book_slot_direct`):
`wait_for_selector('button:has-text("Book")')` returns the first button whose
label contains `Book` case-insensitively (Playwright has-text is substring,
case-insensitive, non-strict so the first DOM match is returned); the code
then clicks it only when its stripped text equals `"Book"` exactly. -/

/-- The button the selector `button:has-text("Book")` resolves to: the first
button label containing `Book` case-insensitively. -/
def firstBookMatch (buttons : List (List Char)) : Option (List Char) :=
  buttons.find? (fun b => containsSub "BOOK".data (b.map Char.toUpper))

/-- The booking control actually clicked: the found button, clicked only when
`btn_text.strip() == "Book"` (sniper.py line 768 / line 1001). -/
def clickedBookButton (buttons : List (List Char)) : Option (List Char) :=
  match firstBookMatch buttons with
  | some b => if trimStr b = "Book".data then some b else none
  | none => none

/-- Claim C1 counterexample: on a page whose buttons are `Booked` then
`Book`, a button labeled exactly `Book` is present, yet nothing is clicked —
the selector resolves to the `Booked` button first and the exact-label guard
then rejects it, so the exactly-labeled button is not the one found. -/
theorem bookButton_counterexample :
    "Book".data ∈ ["Booked".data, "Book".data] ∧
    clickedBookButton ["Booked".data, "Book".data] = none := by decide

/-- Claim C1 (amended): the booking-control click is guarded by an exact
stripped-label comparison, so a button whose label is a proper superstring
such as `Booked` is never clicked; and a button labeled exactly `Book` is the
one found and clicked precisely when it is the first button whose label
contains `Book` case-insensitively — when a superstring-labeled button
precedes it on the page, no booking click is issued at all. -/
theorem bookButton_exact_guard :
    (∀ buttons lbl, clickedBookButton buttons = some lbl →
      trimStr lbl = "Book".data) ∧
    (∀ buttons, firstBookMatch buttons = some ("Book".data) →
      clickedBookButton buttons = some ("Book".data)) := by
  constructor
  · intro buttons lbl hclick
    unfold clickedBookButton at hclick
    split at hclick
    · next b hfind =>
      split at hclick
      · next heq => cases hclick; exact heq
      · cases hclick
    · cases hclick
  · intro buttons hfind
    unfold clickedBookButton
    rw [hfind]
    decide

/-- Witness for `bookButton_exact_guard`: on a page whose only button is
`Book`, that button is found and clicked. -/
theorem bookButton_exact_guard_witness :
    clickedBookButton ["Book".data] = some ("Book".data) :=
  bookButton_exact_guard.2 ["Book".data] (by decide)

/-! ## Booking Attempter loop (claim C2)

sniper.py lines 742-817 (`run`): for each candidate court in priority order,
resolve its click position, pointer-click it, look for the booking dialog,
drive `Book` and `Confirm booking`, and stop at the first success
(`booked_successfully = True` followed by `break`). Side effects are recorded
as an explicit event trace. -/

inductive Ev where
  | goto
  | clickDayTab
  | clickNextArrow
  | clickCell (court : List Char)
  | clickBookBtn (court : List Char)
  | clickConfirmBtn (court : List Char)
  | pressEscape
  | screenshot
  | evalPage
  | confirmedBooking (court : List Char)
  | warnNoSession
  | abortAuth (msg : List Char)
deriving DecidableEq

/-- What the rendered page offers for one candidate court: the resolved click
position (if any), the buttons visible after clicking the cell, and whether
the `Confirm booking` control appears after clicking `Book`. -/
structure CourtEnv where
  pos : Option (ℚ × ℚ)
  buttons : List (List Char)
  confirmBtn : Bool

/-- sniper.py lines 747-748: `if not pos.get('x') or not pos.get('y')` —
Python truthiness, so a missing position or a zero coordinate is skipped. -/
def posUsable : Option (ℚ × ℚ) → Bool
  | none => false
  | some (x, y) => !(x = 0 : Bool) && !(y = 0 : Bool)

/-- One candidate attempt (sniper.py lines 747-817): the events it emits and
whether it ended with `booked_successfully = True`.  The `Escape` dismiss is
reached both when no dialog appeared and when a non-exact button was found;
on success the loop breaks before the dismiss. -/
def attemptCourt (env : List Char → CourtEnv) (c : List Char) :
    List Ev × Bool :=
  if posUsable (env c).pos then
    match clickedBookButton (env c).buttons with
    | some _ =>
      (Ev.clickCell c :: Ev.clickBookBtn c ::
        ((if (env c).confirmBtn then [Ev.clickConfirmBtn c] else []) ++
          [Ev.confirmedBooking c]), true)
    | none => ([Ev.clickCell c, Ev.pressEscape], false)
  else ([], false)

/-- sniper.py lines 742-817: the candidate loop, first success wins. -/
def tryCourtList (env : List Char → CourtEnv) :
    List (List Char) → List Ev × Option (List Char)
  | [] => ([], none)
  | c :: cs =>
    if (attemptCourt env c).2 then ((attemptCourt env c).1, some c)
    else ((attemptCourt env c).1 ++ (tryCourtList env cs).1,
          (tryCourtList env cs).2)

def isConfirmEv : Ev → Bool
  | .confirmedBooking _ => true
  | _ => false

theorem attemptCourt_spec (env : List Char → CourtEnv) (c : List Char) :
    attemptCourt env c = ([], false) ∨
    attemptCourt env c = ([Ev.clickCell c, Ev.pressEscape], false) ∨
    ∃ mid : List Ev,
      attemptCourt env c =
        (Ev.clickCell c :: Ev.clickBookBtn c ::
          (mid ++ [Ev.confirmedBooking c]), true) ∧
      mid.countP isConfirmEv = 0 := by
  unfold attemptCourt
  by_cases hp : posUsable (env c).pos = true
  · rw [if_pos hp]
    cases hcb : clickedBookButton (env c).buttons with
    | none => exact Or.inr (Or.inl rfl)
    | some b =>
      refine Or.inr (Or.inr
        ⟨(if (env c).confirmBtn then [Ev.clickConfirmBtn c] else []), rfl, ?_⟩)
      cases hcf : (env c).confirmBtn <;> simp [isConfirmEv]
  · rw [if_neg hp]
    exact Or.inl rfl

theorem attemptCourt_false_noConfirm (env : List Char → CourtEnv)
    (c : List Char) (h : (attemptCourt env c).2 = false) :
    (attemptCourt env c).1.countP isConfirmEv = 0 := by
  rcases attemptCourt_spec env c with he | he | ⟨mid, he, _⟩
  · rw [he]; rfl
  · rw [he]; rfl
  · rw [he] at h; cases h

theorem attemptCourt_true_shape (env : List Char → CourtEnv)
    (c : List Char) (h : (attemptCourt env c).2 = true) :
    ∃ pre, (attemptCourt env c).1 = pre ++ [Ev.confirmedBooking c] ∧
      pre.countP isConfirmEv = 0 := by
  rcases attemptCourt_spec env c with he | he | ⟨mid, he, hm⟩
  · rw [he] at h; cases h
  · rw [he] at h; cases h
  · refine ⟨Ev.clickCell c :: Ev.clickBookBtn c :: mid, ?_, ?_⟩
    · rw [he]; simp
    · simpa [List.countP_cons, isConfirmEv] using hm

theorem tryCourtList_cons (env : List Char → CourtEnv) (c : List Char)
    (cs : List (List Char)) :
    tryCourtList env (c :: cs) =
      if (attemptCourt env c).2 then ((attemptCourt env c).1, some c)
      else ((attemptCourt env c).1 ++ (tryCourtList env cs).1,
            (tryCourtList env cs).2) := rfl

theorem tryCourtList_conf_shape (env : List Char → CourtEnv) :
    ∀ courts : List (List Char),
      ((tryCourtList env courts).2 = none →
        (tryCourtList env courts).1.countP isConfirmEv = 0) ∧
      (∀ c, (tryCourtList env courts).2 = some c →
        ∃ pre, (tryCourtList env courts).1 = pre ++ [Ev.confirmedBooking c] ∧
          pre.countP isConfirmEv = 0) := by
  intro courts
  induction courts with
  | nil => exact ⟨fun _ => rfl, fun c h => by cases h⟩
  | cons c cs ih =>
    by_cases hb : (attemptCourt env c).2 = true
    · constructor
      · intro hnone
        rw [tryCourtList_cons, if_pos hb] at hnone
        cases hnone
      · intro c' hsome
        rw [tryCourtList_cons, if_pos hb] at hsome ⊢
        have hcc : c = c' := Option.some.inj hsome
        subst hcc
        exact attemptCourt_true_shape env c hb
    · have hbf : (attemptCourt env c).2 = false := by
        simpa using hb
      constructor
      · intro hnone
        rw [tryCourtList_cons, if_neg hb] at hnone ⊢
        show ((attemptCourt env c).1 ++
          (tryCourtList env cs).1).countP isConfirmEv = 0
        rw [List.countP_append, attemptCourt_false_noConfirm env c hbf,
          ih.1 hnone]
      · intro c' hsome
        rw [tryCourtList_cons, if_neg hb] at hsome ⊢
        obtain ⟨pre, hpre, hcnt⟩ := ih.2 c' hsome
        refine ⟨(attemptCourt env c).1 ++ pre, ?_, ?_⟩
        · show (attemptCourt env c).1 ++ (tryCourtList env cs).1 = _
          rw [hpre, List.append_assoc]
        · rw [List.countP_append, attemptCourt_false_noConfirm env c hbf,
            hcnt]

theorem countP_le_one_of_shape (l : List Ev) :
    (l.countP isConfirmEv = 0 ∨
      ∃ pre c, l = pre ++ [Ev.confirmedBooking c] ∧
        pre.countP isConfirmEv = 0) →
    l.countP isConfirmEv ≤ 1 := by
  rintro (h | ⟨pre, c, rfl, hcnt⟩)
  · omega
  · rw [List.countP_append, hcnt]
    simp [isConfirmEv]

theorem only_confirm_is_last (p : Ev → Bool) :
    ∀ (a : List Ev) (e : Ev), a.countP p = 0 → p e = true →
      ∀ (pre : List Ev) (x : Ev) (post : List Ev),
        a ++ [e] = pre ++ x :: post → p x = true → post = [] := by
  intro a
  induction a with
  | nil =>
    intro e _ hpe pre x post heq hpx
    cases pre with
    | nil =>
      simp only [List.nil_append] at heq
      exact ((List.cons.injEq e [] x post).mp heq).2.symm
    | cons q qs =>
      simp only [List.nil_append, List.cons_append, List.cons.injEq] at heq
      obtain ⟨rfl, heq2⟩ := heq
      have hlen := congrArg List.length heq2
      simp only [List.length_nil, List.length_append, List.length_cons]
        at hlen
      omega
  | cons b bs ih =>
    intro e hcnt hpe pre x post heq hpx
    rw [List.countP_cons] at hcnt
    have hpb : p b = false := by
      cases hb : p b
      · rfl
      · rw [hb] at hcnt; simp at hcnt
    rw [hpb] at hcnt
    simp only [Bool.false_eq_true, if_false, add_zero] at hcnt
    cases pre with
    | nil =>
      simp only [List.cons_append, List.nil_append, List.cons.injEq] at heq
      obtain ⟨rfl, _⟩ := heq
      rw [hpx] at hpb
      cases hpb
    | cons q qs =>
      simp only [List.cons_append, List.cons.injEq] at heq
      obtain ⟨rfl, heq2⟩ := heq
      exact ih e hcnt hpe qs x post heq2 hpx

/-- Claim C2: for every page environment and every ordered candidate court
list, the Booking Attempter's trace contains at most one `Confirmed` outcome,
and once a candidate yields `Confirmed` the trace ends — no later candidate
is clicked or otherwise attempted. -/
theorem attempter_single_confirm (env : List Char → CourtEnv)
    (courts : List (List Char)) :
    (tryCourtList env courts).1.countP isConfirmEv ≤ 1 ∧
    (∀ (pre : List Ev) (c : List Char) (post : List Ev),
      (tryCourtList env courts).1 = pre ++ Ev.confirmedBooking c :: post →
      post = []) := by
  have hshape := tryCourtList_conf_shape env courts
  constructor
  · apply countP_le_one_of_shape
    cases hres : (tryCourtList env courts).2 with
    | none => exact Or.inl (hshape.1 hres)
    | some c =>
      obtain ⟨pre, hpre, hcnt⟩ := hshape.2 c hres
      exact Or.inr ⟨pre, c, hpre, hcnt⟩
  · intro pre c post heq
    cases hres : (tryCourtList env courts).2 with
    | none =>
      have h0 := hshape.1 hres
      rw [heq, List.countP_append, List.countP_cons] at h0
      simp [isConfirmEv] at h0
    | some c' =>
      obtain ⟨pre', hpre', hcnt⟩ := hshape.2 c' hres
      have heq' : pre' ++ [Ev.confirmedBooking c'] = pre ++
          Ev.confirmedBooking c :: post := by rw [← hpre', heq]
      exact only_confirm_is_last isConfirmEv pre' (Ev.confirmedBooking c')
        hcnt (by simp [isConfirmEv]) pre (Ev.confirmedBooking c) post heq'
        (by simp [isConfirmEv])

/-- A concrete page environment: `Wood 1` is booked (no dialog), `Wood 2` has
the dialog with `Book` and `Confirm booking`. -/
def demoEnv : List Char → CourtEnv := fun c =>
  if c = "Wood 1".data then ⟨some (200, 300), [], false⟩
  else if c = "Wood 2".data then
    ⟨some (320, 300), ["Book".data], true⟩
  else ⟨none, [], false⟩

/-- Witness for `attempter_single_confirm`: on `demoEnv` with candidates
`Wood 1, Wood 2, Wood 3`, the trace ends at `Wood 2`'s confirmation and
nothing follows it. -/
theorem attempter_single_confirm_witness :
    (tryCourtList demoEnv
        ["Wood 1".data, "Wood 2".data, "Wood 3".data]).1.countP
      isConfirmEv ≤ 1 ∧
    ([] : List Ev) = [] :=
  ⟨(attempter_single_confirm demoEnv
      ["Wood 1".data, "Wood 2".data, "Wood 3".data]).1,
   (attempter_single_confirm demoEnv
      ["Wood 1".data, "Wood 2".data, "Wood 3".data]).2
     [Ev.clickCell "Wood 1".data, Ev.pressEscape,
      Ev.clickCell "Wood 2".data, Ev.clickBookBtn "Wood 2".data,
      Ev.clickConfirmBtn "Wood 2".data]
     "Wood 2".data [] (by decide)⟩

/-! ## Session gate before navigation (claim C6)

sniper.py `run` lines 489-541: when the session file is missing, `run`
merely warns (`No saved session found. Running without authentication.`) and
still launches the browser and navigates to the booking page; it aborts with
the re-authentication instruction only after loading the page and seeing the
visitor-mode signal.  `book_slot_direct` lines 884-886 instead returns the
re-authentication failure before any browser is launched. -/

/-- The page/content state `run` observes (sniper.py lines 528-531). -/
structure RunEnv where
  sessionExists : Bool
  contentUserMode : Bool
  contentProfile : Bool
  contentVisitorMode : Bool
  contentLoginTag : Bool

/-- The re-authentication instruction `run` prints when not logged in
(sniper.py lines 536-537). -/
def reAuthMsg : List Char := "python3 sniper.py --setup".data

/-- sniper.py lines 489-543: the prefix of `run` up to the login check — its
event trace and the abort message, if it aborted. -/
def runPrefixTrace (env : RunEnv) : List Ev × Option (List Char) :=
  let isLoggedIn := env.contentUserMode || env.contentProfile
  let isVisitor := env.contentVisitorMode || env.contentLoginTag
  let pre := (if env.sessionExists then [] else [Ev.warnNoSession]) ++
    [Ev.goto, Ev.screenshot]
  if isVisitor && !isLoggedIn then
    (pre ++ [Ev.screenshot, Ev.abortAuth reAuthMsg], some reAuthMsg)
  else (pre, none)

/-- sniper.py lines 884-886 and 922-926: the navigation events
`book_slot_direct` emits before its first page interaction — none at all when
the session file is missing. -/
def bookDirectTrace (sessionExists : Bool) : List Ev :=
  if !sessionExists then [] else [Ev.goto]

/-- A no-session environment whose page shows the visitor-mode signal. -/
def runEnvNoSession : RunEnv := ⟨false, false, false, true, true⟩

/-- Claim C6 counterexample: with no session file present, `run` still
navigates to the remote site — `goto` occurs in its trace, before the
eventual auth abort — so the engine's booking run does not abort before
navigation. -/
theorem run_no_session_counterexample :
    runEnvNoSession.sessionExists = false ∧
    Ev.goto ∈ (runPrefixTrace runEnvNoSession).1 ∧
    (runPrefixTrace runEnvNoSession).1 =
      [Ev.warnNoSession, Ev.goto, Ev.screenshot, Ev.screenshot,
       Ev.abortAuth reAuthMsg] := by decide

/-- Claim C6 (amended): when no session file is present, the direct-booking
entry point aborts before any navigation, surfacing the auth failure with the
re-authentication instruction; the main `run` entry point instead navigates
first and aborts with the re-authentication instruction only once the page
shows the visitor-mode signal. -/
theorem no_session_auth_abort :
    (∀ (targetDate targetTime : List Char) (ny nm nd : Nat),
      book_slot_direct_validate false targetDate targetTime ny nm nd =
        .error noSessionMsg) ∧
    bookDirectTrace false = [] ∧
    containsSub "--setup".data noSessionMsg = true ∧
    (∀ env : RunEnv, env.contentUserMode = false →
      env.contentProfile = false → env.contentVisitorMode = true →
      (runPrefixTrace env).2 = some reAuthMsg) ∧
    containsSub "--setup".data reAuthMsg = true := by
  refine ⟨?_, by decide, by decide, ?_, by decide⟩
  · intro targetDate targetTime ny nm nd
    rfl
  · intro env h1 h2 h3
    unfold runPrefixTrace
    simp [h1, h2, h3]

/-- Witness for `no_session_auth_abort` at concrete inputs. -/
theorem no_session_auth_abort_witness :
    book_slot_direct_validate false "2026-02-02".data "7:00 PM".data
        2026 1 30 = .error noSessionMsg ∧
    (runPrefixTrace runEnvNoSession).2 = some reAuthMsg :=
  ⟨no_session_auth_abort.1 "2026-02-02".data "7:00 PM".data 2026 1 30,
   no_session_auth_abort.2.2.2.1 runEnvNoSession rfl rfl rfl⟩

/-! ## Availability Scanner trace (claim C8)

sniper.py `check_availability` lines 1063-1134: after the session gate it
navigates to the booking page, clicks the Day-view tab (locator click or the
fixed-coordinate fallback at (100, 38)), and for each later day clicks the
next-day arrow (locator click or the fallback at (443, 38)); each day is then
read via a screenshot and a JavaScript evaluation that performs no clicks. -/

def concatMapL (f : α → List β) : List α → List β
  | [] => []
  | a :: as => f a ++ concatMapL f as

/-- The events of day `d` of the scan (sniper.py lines 1121-1283). -/
def scanDayEvents (d : Nat) : List Ev :=
  (if d > 0 then [Ev.clickNextArrow] else []) ++ [Ev.screenshot, Ev.evalPage]

/-- sniper.py lines 1063-1283: the full event trace of one scanner run over
`daysLimit + 1` day views. -/
def check_availability_trace (sessionExists : Bool) (daysLimit : Nat) :
    List Ev :=
  if !sessionExists then []
  else Ev.goto :: Ev.clickDayTab ::
    concatMapL scanDayEvents (List.range (daysLimit + 1))

def isClickEv : Ev → Bool
  | .clickDayTab => true
  | .clickNextArrow => true
  | .clickCell _ => true
  | .clickBookBtn _ => true
  | .clickConfirmBtn _ => true
  | _ => false

theorem mem_concatMapL {f : α → List β} {e : β} :
    ∀ {l : List α}, e ∈ concatMapL f l → ∃ a ∈ l, e ∈ f a := by
  intro l
  induction l with
  | nil => intro h; cases h
  | cons a as ih =>
    intro h
    rcases List.mem_append.mp h with h' | h'
    · exact ⟨a, List.mem_cons_self _ _, h'⟩
    · obtain ⟨b, hb, hbe⟩ := ih h'
      exact ⟨b, List.mem_cons_of_mem _ hb, hbe⟩

/-- Claim C8 counterexample: a scanner run over the default 4-day horizon
does issue clicks — the Day-view tab click is in its trace. -/
theorem scanner_clicks_counterexample :
    (check_availability_trace true 4).any isClickEv = true ∧
    Ev.clickDayTab ∈ check_availability_trace true 4 := by decide

/-- Claim C8 (amended): every click the Availability Scanner issues is a
navigation click — the Day-view tab switch or the next-day arrow; it never
clicks a grid cell, a `Book` control, or a `Confirm booking` control, so the
per-day reading phase is read-only. -/
theorem scanner_clicks_only_navigation :
    (∀ (sess : Bool) (daysLimit : Nat) (e : Ev),
      e ∈ check_availability_trace sess daysLimit → isClickEv e = true →
      e = Ev.clickDayTab ∨ e = Ev.clickNextArrow) ∧
    (∀ (sess : Bool) (daysLimit : Nat) (c : List Char),
      Ev.clickCell c ∉ check_availability_trace sess daysLimit ∧
      Ev.clickBookBtn c ∉ check_availability_trace sess daysLimit ∧
      Ev.clickConfirmBtn c ∉ check_availability_trace sess daysLimit) := by
  have main : ∀ (sess : Bool) (daysLimit : Nat) (e : Ev),
      e ∈ check_availability_trace sess daysLimit → isClickEv e = true →
      e = Ev.clickDayTab ∨ e = Ev.clickNextArrow := by
    intro sess daysLimit e hmem hclick
    unfold check_availability_trace at hmem
    cases sess with
    | false => simp at hmem
    | true =>
      simp only [Bool.not_true, Bool.false_eq_true, if_false] at hmem
      rcases List.mem_cons.mp hmem with rfl | hmem'
      · cases hclick
      · rcases List.mem_cons.mp hmem' with rfl | hmem''
        · exact Or.inl rfl
        · obtain ⟨d, _, hde⟩ := mem_concatMapL hmem''
          unfold scanDayEvents at hde
          rcases List.mem_append.mp hde with hd | hd
          · by_cases hd0 : d > 0
            · rw [if_pos hd0] at hd
              simp only [List.mem_singleton] at hd
              exact Or.inr hd
            · rw [if_neg hd0] at hd
              cases hd
          · rcases List.mem_cons.mp hd with rfl | hd'
            · cases hclick
            · simp only [List.mem_singleton] at hd'
              subst hd'
              cases hclick
  refine ⟨main, ?_⟩
  intro sess daysLimit c
  refine ⟨?_, ?_, ?_⟩ <;> intro hmem
  · rcases main sess daysLimit _ hmem rfl with h | h <;> cases h
  · rcases main sess daysLimit _ hmem rfl with h | h <;> cases h
  · rcases main sess daysLimit _ hmem rfl with h | h <;> cases h

/-- Witness for `scanner_clicks_only_navigation` at a concrete trace
element. -/
theorem scanner_clicks_only_navigation_witness :
    Ev.clickDayTab = Ev.clickDayTab ∨ Ev.clickDayTab = Ev.clickNextArrow :=
  scanner_clicks_only_navigation.1 true 4 Ev.clickDayTab (by decide) rfl

/-! ## Availability Scanner cell classification (claim C7)

sniper.py `check_availability`, JavaScript lines 1245-1271: for each hour in
the scan range that has a time-row, a cell is marked booked when some
occupied block overlaps the court column horizontally
(`|block.centerX - court.centerX| < court.width * 0.7`) and covers the row
vertically (`block.y <= timeRow.y + 20 && block.bottom > timeRow.y`), and the
hour label is pushed onto exactly one of `bookedSlots` / `availableSlots`. -/

structure ColRect where
  centerX : ℚ
  width : ℚ
deriving DecidableEq

structure RowRect where
  y : ℚ
deriving DecidableEq

structure BlockRect where
  x : ℚ
  y : ℚ
  width : ℚ
  height : ℚ
deriving DecidableEq

def blockCenterX (b : BlockRect) : ℚ := b.x + b.width / 2

def blockBottom (b : BlockRect) : ℚ := b.y + b.height

/-- Line 1254: `Math.abs(block.centerX - court.centerX) < court.width * 0.7`. -/
def xOverlapB (b : BlockRect) (col : ColRect) : Bool :=
  decide (|blockCenterX b - col.centerX| < col.width * (7 / 10))

/-- Line 1255: `block.y <= timeRow.y + 20 && block.bottom > timeRow.y`. -/
def yOverlapB (b : BlockRect) (row : RowRect) : Bool :=
  decide (b.y ≤ row.y + 20) && decide (blockBottom b > row.y)

/-- Lines 1249-1261: `isBooked` after the `forEach` over all blocks. -/
def cellBooked (blocks : List BlockRect) (col : ColRect) (row : RowRect) :
    Bool :=
  blocks.any (fun b => xOverlapB b col && yOverlapB b row)

/-- Line 1263: `hour > 12 ? (hour - 12) + ':00 PM' : hour + ':00 AM'`. -/
def hourLabelJS (h : Nat) : List Char :=
  if h > 12 then Nat.toDigits 10 (h - 12) ++ ":00 PM".data
  else Nat.toDigits 10 h ++ ":00 AM".data

/-- Lines 1229-1232: `for (let h = altStartHour; h <= 23; h++)`. -/
def checkHoursList (altStart : Nat) : List Nat :=
  (List.range 24).filter (fun h => decide (altStart ≤ h))

/-- One iteration of the `checkHours.forEach` body (lines 1245-1271): with no
time-row the hour is skipped, otherwise its label joins `bookedSlots` or
`availableSlots` according to `cellBooked`. -/
def scanStep (blocks : List BlockRect) (col : ColRect) (h : Nat)
    (orow : Option RowRect) (rest : List (List Char) × List (List Char)) :
    List (List Char) × List (List Char) :=
  match orow with
  | none => rest
  | some row =>
    if cellBooked blocks col row then (hourLabelJS h :: rest.1, rest.2)
    else (rest.1, hourLabelJS h :: rest.2)

/-- Lines 1245-1271: the `(bookedSlots, availableSlots)` pair built for one
court over a given hour list. -/
def scanCourtSlots (blocks : List BlockRect) (col : ColRect)
    (timeRows : Nat → Option RowRect) :
    List Nat → List (List Char) × List (List Char)
  | [] => ([], [])
  | h :: hs =>
    scanStep blocks col h (timeRows h) (scanCourtSlots blocks col timeRows hs)

theorem scanStep_none (blocks : List BlockRect) (col : ColRect) (h : Nat)
    (rest : List (List Char) × List (List Char)) :
    scanStep blocks col h none rest = rest := rfl

theorem scanStep_some (blocks : List BlockRect) (col : ColRect) (h : Nat)
    (row : RowRect) (rest : List (List Char) × List (List Char)) :
    scanStep blocks col h (some row) rest =
      if cellBooked blocks col row then (hourLabelJS h :: rest.1, rest.2)
      else (rest.1, hourLabelJS h :: rest.2) := rfl

theorem scanCourtSlots_cons (blocks : List BlockRect) (col : ColRect)
    (timeRows : Nat → Option RowRect) (h : Nat) (hs : List Nat) :
    scanCourtSlots blocks col timeRows (h :: hs) =
      scanStep blocks col h (timeRows h)
        (scanCourtSlots blocks col timeRows hs) := rfl

theorem hourLabelJS_inj :
    ∀ a b : Fin 24, hourLabelJS a.val = hourLabelJS b.val → a = b := by decide

theorem mem_scanCourtSlots (blocks : List BlockRect) (col : ColRect)
    (timeRows : Nat → Option RowRect) :
    ∀ (hs : List Nat) (l : List Char),
      (l ∈ (scanCourtSlots blocks col timeRows hs).1 ∨
       l ∈ (scanCourtSlots blocks col timeRows hs).2) →
      ∃ h ∈ hs, l = hourLabelJS h := by
  intro hs
  induction hs with
  | nil => intro l h; rcases h with h | h <;> cases h
  | cons a as ih =>
    intro l hmem
    have step : ∀ m : List Char,
        (m ∈ (scanCourtSlots blocks col timeRows as).1 ∨
         m ∈ (scanCourtSlots blocks col timeRows as).2) →
        ∃ h ∈ a :: as, m = hourLabelJS h := by
      intro m hm
      obtain ⟨h, hh, hlab⟩ := ih m hm
      exact ⟨h, List.mem_cons_of_mem _ hh, hlab⟩
    rw [scanCourtSlots_cons] at hmem
    cases hrow : timeRows a with
    | none => rw [hrow, scanStep_none] at hmem; exact step l hmem
    | some row =>
      rw [hrow, scanStep_some] at hmem
      by_cases hcb : cellBooked blocks col row = true
      · rw [if_pos hcb] at hmem
        rcases hmem with hm | hm
        · rcases List.mem_cons.mp hm with rfl | hm'
          · exact ⟨a, List.mem_cons_self _ _, rfl⟩
          · exact step l (Or.inl hm')
        · exact step l (Or.inr hm)
      · rw [if_neg hcb] at hmem
        rcases hmem with hm | hm
        · exact step l (Or.inl hm)
        · rcases List.mem_cons.mp hm with rfl | hm'
          · exact ⟨a, List.mem_cons_self _ _, rfl⟩
          · exact step l (Or.inr hm')

theorem scanCourtSlots_char (blocks : List BlockRect) (col : ColRect)
    (timeRows : Nat → Option RowRect) :
    ∀ hs : List Nat, hs.Nodup → (∀ x ∈ hs, x < 24) →
      ∀ (h : Nat) (row : RowRect), h ∈ hs → timeRows h = some row → h < 24 →
        (hourLabelJS h ∈ (scanCourtSlots blocks col timeRows hs).1 ↔
          cellBooked blocks col row = true) ∧
        (hourLabelJS h ∈ (scanCourtSlots blocks col timeRows hs).2 ↔
          cellBooked blocks col row = false) := by
  intro hs
  induction hs with
  | nil => intro _ _ h row hmem; cases hmem
  | cons a as ih =>
    intro hnd hbd h row hmem hrow h24
    have hand : a ∉ as ∧ as.Nodup := List.nodup_cons.mp hnd
    have hbd' : ∀ x ∈ as, x < 24 := fun x hx =>
      hbd x (List.mem_cons_of_mem _ hx)
    have notin_rest : ∀ (k : Nat), k < 24 → k ∉ as →
        hourLabelJS k ∉ (scanCourtSlots blocks col timeRows as).1 ∧
        hourLabelJS k ∉ (scanCourtSlots blocks col timeRows as).2 := by
      intro k hk24 hkas
      constructor <;> intro hin
      · obtain ⟨h', hh', hlab⟩ :=
          mem_scanCourtSlots blocks col timeRows as _ (Or.inl hin)
        have := hourLabelJS_inj ⟨k, hk24⟩ ⟨h', hbd' h' hh'⟩ hlab
        cases this
        exact hkas hh'
      · obtain ⟨h', hh', hlab⟩ :=
          mem_scanCourtSlots blocks col timeRows as _ (Or.inr hin)
        have := hourLabelJS_inj ⟨k, hk24⟩ ⟨h', hbd' h' hh'⟩ hlab
        cases this
        exact hkas hh'
    rcases List.mem_cons.mp hmem with rfl | hmem'
    · -- the head hour itself
      have hnotin := notin_rest h h24 hand.1
      rw [scanCourtSlots_cons, hrow, scanStep_some]
      by_cases hcb : cellBooked blocks col row = true
      · rw [if_pos hcb]
        constructor
        · exact ⟨fun _ => hcb, fun _ => List.mem_cons_self _ _⟩
        · constructor
          · intro hin; exact absurd hin hnotin.2
          · intro hfalse; rw [hcb] at hfalse; cases hfalse
      · rw [if_neg hcb]
        have hcbf : cellBooked blocks col row = false := by
          simpa using hcb
        constructor
        · constructor
          · intro hin; exact absurd hin hnotin.1
          · intro htrue; rw [htrue] at hcbf; cases hcbf
        · exact ⟨fun _ => hcbf, fun _ => List.mem_cons_self _ _⟩
    · -- an hour further down the list
      have hne : h ≠ a := fun he => hand.1 (he ▸ hmem')
      have hlabne : hourLabelJS h ≠ hourLabelJS a := by
        intro he
        have := hourLabelJS_inj ⟨h, h24⟩ ⟨a, hbd a (List.mem_cons_self _ _)⟩ he
        exact hne (congrArg Fin.val this)
      have ihh := ih hand.2 hbd' h row hmem' hrow h24
      rw [scanCourtSlots_cons]
      cases hrowa : timeRows a with
      | none => rw [scanStep_none]; exact ihh
      | some rowa =>
        rw [scanStep_some]
        by_cases hcb : cellBooked blocks col rowa = true
        · rw [if_pos hcb]
          refine ⟨?_, ihh.2⟩
          rw [List.mem_cons]
          constructor
          · intro hin
            rcases hin with he | hin'
            · exact absurd he hlabne
            · exact ihh.1.mp hin'
          · intro hb; exact Or.inr (ihh.1.mpr hb)
        · rw [if_neg hcb]
          refine ⟨ihh.1, ?_⟩
          rw [List.mem_cons]
          constructor
          · intro hin
            rcases hin with he | hin'
            · exact absurd he hlabne
            · exact ihh.2.mp hin'
          · intro hb; exact Or.inr (ihh.2.mpr hb)

/-- Claim C7: for every page state (occupied blocks, court column, time
rows), every hour of the scan range that has a time-row is classified booked
iff some occupied block's horizontal span overlaps the court's column center
within 70% of the column width and its vertical span covers the hour row's
position, and otherwise it is classified available — its label is pushed onto
`availableSlots` exactly when no occupied block overlaps; no cell is both
booked and available in the same matrix. -/
theorem scanner_cell_classification (blocks : List BlockRect) (col : ColRect)
    (timeRows : Nat → Option RowRect) (altStart h : Nat) (row : RowRect)
    (hrow : timeRows h = some row) (halt : altStart ≤ h) (h24 : h < 24) :
    (hourLabelJS h ∈
        (scanCourtSlots blocks col timeRows (checkHoursList altStart)).1 ↔
      ∃ b ∈ blocks, xOverlapB b col = true ∧ yOverlapB b row = true) ∧
    (hourLabelJS h ∈
        (scanCourtSlots blocks col timeRows (checkHoursList altStart)).2 ↔
      ¬∃ b ∈ blocks, xOverlapB b col = true ∧ yOverlapB b row = true) ∧
    ¬(hourLabelJS h ∈
        (scanCourtSlots blocks col timeRows (checkHoursList altStart)).1 ∧
      hourLabelJS h ∈
        (scanCourtSlots blocks col timeRows (checkHoursList altStart)).2) := by
  have hnd : (checkHoursList altStart).Nodup :=
    (List.nodup_range 24).filter _
  have hbd : ∀ x ∈ checkHoursList altStart, x < 24 := by
    intro x hx
    have := List.mem_filter.mp hx
    exact List.mem_range.mp this.1
  have hin : h ∈ checkHoursList altStart :=
    List.mem_filter.mpr ⟨List.mem_range.mpr h24, by simpa using halt⟩
  have hchar := scanCourtSlots_char blocks col timeRows
    (checkHoursList altStart) hnd hbd h row hin hrow h24
  have hexists : cellBooked blocks col row = true ↔
      ∃ b ∈ blocks, xOverlapB b col = true ∧ yOverlapB b row = true := by
    unfold cellBooked
    rw [List.any_eq_true]
    constructor
    · rintro ⟨b, hb, hover⟩
      exact ⟨b, hb, Bool.and_eq_true _ _ |>.mp hover⟩
    · rintro ⟨b, hb, hx, hy⟩
      exact ⟨b, hb, Bool.and_eq_true _ _ |>.mpr ⟨hx, hy⟩⟩
  refine ⟨hchar.1.trans hexists, ?_, ?_⟩
  · rw [hchar.2]
    constructor
    · intro hfalse hex
      rw [hexists.mpr hex] at hfalse
      cases hfalse
    · intro hnex
      cases hcb : cellBooked blocks col row
      · rfl
      · exact absurd (hexists.mp hcb) hnex
  · rintro ⟨h1, h2⟩
    have hb1 := hchar.1.mp h1
    have hb2 := hchar.2.mp h2
    rw [hb1] at hb2
    cases hb2

/-- A concrete scanner page: one occupied block over the 7 PM row of a
column. -/
def demoBlocks : List BlockRect := [⟨150, 100, 60, 40⟩]

def demoCol : ColRect := ⟨160, 80⟩

def demoRows : Nat → Option RowRect := fun h =>
  if h = 19 then some ⟨110⟩ else if h = 18 then some ⟨500⟩ else none

/-- Witness for `scanner_cell_classification`: the demo block books the
7 PM cell, and the 6 PM cell (whose row no block covers) is classified
available. -/
theorem scanner_cell_classification_witness :
    hourLabelJS 19 ∈
      (scanCourtSlots demoBlocks demoCol demoRows (checkHoursList 17)).1 ∧
    hourLabelJS 18 ∈
      (scanCourtSlots demoBlocks demoCol demoRows (checkHoursList 17)).2 := by
  have hx : xOverlapB ⟨150, 100, 60, 40⟩ demoCol = true := by
    unfold xOverlapB blockCenterX demoCol
    rw [decide_eq_true_eq]
    have h20 : (150 : ℚ) + 60 / 2 - 160 = 20 := by norm_num
    rw [h20, abs_of_nonneg (by norm_num : (0 : ℚ) ≤ 20)]
    norm_num
  have hy : yOverlapB ⟨150, 100, 60, 40⟩ ⟨110⟩ = true := by
    unfold yOverlapB blockBottom
    rw [Bool.and_eq_true, decide_eq_true_eq, decide_eq_true_eq]
    constructor <;> norm_num
  have hnex : ¬∃ b ∈ demoBlocks,
      xOverlapB b demoCol = true ∧ yOverlapB b ⟨500⟩ = true := by
    rintro ⟨b, hb, _, hy⟩
    simp only [demoBlocks, List.mem_singleton] at hb
    subst hb
    unfold yOverlapB blockBottom at hy
    rw [Bool.and_eq_true] at hy
    have hlt := of_decide_eq_true hy.2
    norm_num at hlt
  exact ⟨(scanner_cell_classification demoBlocks demoCol demoRows 17 19 ⟨110⟩
      rfl (by norm_num) (by norm_num)).1.mpr
    ⟨⟨150, 100, 60, 40⟩, List.mem_cons_self _ _, hx, hy⟩,
    (scanner_cell_classification demoBlocks demoCol demoRows 17 18 ⟨500⟩
      rfl (by norm_num) (by norm_num)).2.1.mpr hnex⟩

/-! ## Action Gateway signature verification (claims C9, C10)

slack_server.py `verify_slack_signature` lines 55-76 and
`handle_slack_action` lines 135-176.  `mac secret ts body` abstracts the
deterministic HMAC-SHA256 signature string
`"v0=" + hmac(secret, "v0:" + ts + ":" + body)`; `now` is `time.time()` in
seconds.  `hmac.compare_digest` is constant-time string equality. -/

/-- slack_server.py lines 55-76.  `none` models the uncaught `ValueError`
from `int(timestamp)` on a non-numeric header; `some b` is the returned
boolean. -/
def verify_slack_signature
    (mac : List Char → List Char → List Char → List Char)
    (secret tsHeader sig body : List Char) (now : Int) : Option Bool :=
  if secret = [] then some true
  else
    match parseIntStr tsHeader with
    | none => none
    | some ts =>
      if (now - ts).natAbs > 60 * 5 then some false
      else some (decide (mac secret tsHeader body = sig))

inductive GateResp where
  | invalidSig
  | handled (r : PathResult)
deriving DecidableEq

/-- slack_server.py lines 135-176: the handler answers the 403
invalid-signature error when verification returns false, and otherwise
handles the action payload; `none` models the handler crashing on an
uncaught exception. -/
def handle_slack_action
    (mac : List Char → List Char → List Char → List Char)
    (secret tsHeader sig body : List Char) (now : Int)
    (value : List Char) (sessionExists : Bool) (ny nm nd : Nat) :
    Option GateResp :=
  match verify_slack_signature mac secret tsHeader sig body now with
  | none => none
  | some false => some .invalidSig
  | some true => some (.handled (directPath value sessionExists ny nm nd))

/-- Claim C9: with the signing secret configured (the unset-secret
configuration is claim C10's subject), every inbound request whose timestamp
differs from the current time by more than the 5-minute window is rejected —
verification returns false and the handler answers the invalid-signature
error instead of acting — without crashing the handler. -/
theorem stale_timestamp_rejected
    (mac : List Char → List Char → List Char → List Char)
    (secret tsHeader sig body : List Char) (now ts : Int)
    (value : List Char) (sessionExists : Bool) (ny nm nd : Nat)
    (hsecret : secret ≠ [])
    (hts : parseIntStr tsHeader = some ts)
    (hstale : (now - ts).natAbs > 60 * 5) :
    verify_slack_signature mac secret tsHeader sig body now = some false ∧
    handle_slack_action mac secret tsHeader sig body now value sessionExists
      ny nm nd = some .invalidSig := by
  have hv : verify_slack_signature mac secret tsHeader sig body now =
      some false := by
    unfold verify_slack_signature
    rw [if_neg hsecret, hts]
    show (if (now - ts).natAbs > 60 * 5 then some false
      else some (decide (mac secret tsHeader body = sig))) = some false
    rw [if_pos hstale]
  refine ⟨hv, ?_⟩
  unfold handle_slack_action
  rw [hv]

/-- Witness for `stale_timestamp_rejected` at a concrete stale request. -/
theorem stale_timestamp_rejected_witness :
    handle_slack_action (fun _ _ _ => []) "s".data "100".data "sig".data
      "body".data 1000 "v".data true 2026 1 30 = some .invalidSig :=
  (stale_timestamp_rejected (fun _ _ _ => []) "s".data "100".data "sig".data
    "body".data 1000 100 "v".data true 2026 1 30
    (by decide) (by decide) (by decide)).2

/-- Claim C10: when the signing secret is unset (empty), verification returns
success for every inbound request — its result is independent of the
timestamp and signature headers, of the request body, and of the current
time — and the handler always proceeds to handle the action, so no request
is ever rejected for authenticity in that configuration. -/
theorem empty_secret_accepts_all
    (mac mac' : List Char → List Char → List Char → List Char)
    (tsHeader sig body tsHeader' sig' body' : List Char) (now now' : Int)
    (value : List Char) (sessionExists : Bool) (ny nm nd : Nat) :
    verify_slack_signature mac [] tsHeader sig body now = some true ∧
    verify_slack_signature mac [] tsHeader sig body now =
      verify_slack_signature mac' [] tsHeader' sig' body' now' ∧
    handle_slack_action mac [] tsHeader sig body now value sessionExists
      ny nm nd = some (.handled (directPath value sessionExists ny nm nd)) := by
  have hv : ∀ (m : List Char → List Char → List Char → List Char)
      (t s b : List Char) (n : Int),
      verify_slack_signature m [] t s b n = some true := by
    intro m t s b n
    unfold verify_slack_signature
    rw [if_pos rfl]
  refine ⟨hv _ _ _ _ _, by rw [hv, hv], ?_⟩
  unfold handle_slack_action
  rw [hv]

/-- Witness for `empty_secret_accepts_all` at concrete inputs. -/
theorem empty_secret_accepts_all_witness :
    verify_slack_signature (fun _ _ _ => []) [] "x".data "y".data "z".data
      7 = some true :=
  (empty_secret_accepts_all (fun _ _ _ => []) (fun _ _ _ => [])
    "x".data "y".data "z".data "a".data "b".data "c".data 7 8
    "v".data true 2026 1 30).1

end ZonePickle
